import Mathlib

/-!
Shallow embedding of the `Future::SampleDecoder` facility declared in
`hal_openeb_plugins` (`sample_decoder.h`), together with the raw record
stream it decodes.  The decoder state carries the three private members
declared in the header (`last_timestamp_`, `time_shift_`,
`time_shift_set_`).  The construction flag `do_time_shift` and the
high-order time accumulator driven by the timer-high marker records are
modelled from the specification, since the translation unit defining
the member function bodies is not part of the tree.
-/

namespace Future

/-- Modelled from the spec: one fixed-size raw record of the wire
format (the `.cpp` defining the record layout is missing from the
tree).  The record kinds are a closed set determined by the kind
discriminant: a contrast-detection ("CD") event record carrying pixel
coordinates, a polarity and the low-order time field, and the
"timer-high" marker record carrying the raw high-order time value.
Any other discriminant is outside the closed set. -/
inductive RawRecord where
  | cd (x y : Nat) (p : Bool) (dt : Nat)
  | timerHigh (t : Nat)
  | unknown (disc : Nat)
deriving DecidableEq, Repr

/-- A decoded contrast-detection event (`Metavision::EventCD`):
coordinates, polarity and the reconstructed timestamp. -/
structure EventCD where
  x : Nat
  y : Nat
  p : Bool
  t : Int
deriving DecidableEq, Repr

/-- State of `Future::SampleDecoder`.  Fields `last_timestamp_`,
`time_shift_` and `time_shift_set_` are the private members declared in
`sample_decoder.h`; `time_shift_enabled` (the constructor's
`do_time_shift` flag) and `time_high_` (the high-order time
accumulator, kept in the output time reference) are modelled from the
spec, the defining translation unit being absent from the tree. -/
structure SampleDecoder where
  time_shift_enabled : Bool
  last_timestamp_ : Int
  time_shift_ : Int
  time_shift_set_ : Bool
  time_high_ : Int
deriving DecidableEq, Repr

/-- Constructor `SampleDecoder(do_time_shift, cd_event_decoder)`: the
three declared members carry their in-class initializers `{0}`, `{0}`,
`{false}`; the accumulator starts at the stream origin. -/
def SampleDecoder.init (do_time_shift : Bool) : SampleDecoder :=
  { time_shift_enabled := do_time_shift, last_timestamp_ := 0, time_shift_ := 0,
    time_shift_set_ := false, time_high_ := 0 }

/-- `get_last_timestamp() const`: returns `last_timestamp_`.  The
state component of the result makes the `const` qualifier explicit. -/
def SampleDecoder.get_last_timestamp (d : SampleDecoder) : Int × SampleDecoder :=
  (d.last_timestamp_, d)

/-- `get_timestamp_shift(timestamp_shift) const`: if the shift is
already known the function returns `true` and the out parameter is set
to its value; otherwise it returns `false` and does nothing (the out
parameter keeps the value it had at the call site). -/
def SampleDecoder.get_timestamp_shift (d : SampleDecoder) (timestamp_shift : Int) :
    Bool × Int × SampleDecoder :=
  if d.time_shift_set_ then (true, d.time_shift_, d)
  else (false, timestamp_shift, d)

/-- `reset_timestamp(timestamp)`.  Modelled from the spec: forces
`last_timestamp_` to the given value (in the output time reference)
and rebases the high-order accumulator to the same new origin, so the
next record is timestamped relative to it; succeeds. -/
def SampleDecoder.reset_timestamp (d : SampleDecoder) (timestamp : Int) :
    Bool × SampleDecoder :=
  (true, { d with last_timestamp_ := timestamp, time_high_ := timestamp })

/-- `reset_timestamp_shift(shift)`.  Modelled from the spec: when time
shifting is disabled it does nothing and returns `false`; otherwise it
unconditionally installs the given shift, marks it known, and returns
`true`. -/
def SampleDecoder.reset_timestamp_shift (d : SampleDecoder) (shift : Int) :
    Bool × SampleDecoder :=
  if d.time_shift_enabled then
    (true, { d with time_shift_ := shift, time_shift_set_ := true })
  else
    (false, d)

/-- Modelled from the spec: decoding of one raw record.  A timer-high
record updates the high-order accumulator and, on first observation
with shifting enabled, defines the time shift; it is not dispatched.
A CD record is timestamped by combining the accumulator with its
low-order time field and is dispatched to the CD sink.  A record with
an unknown discriminant is a decode error (`none`). -/
def SampleDecoder.decodeRecord (d : SampleDecoder) (r : RawRecord) :
    Option (SampleDecoder × Option EventCD) :=
  match r with
  | .timerHigh t =>
    let d1 := if d.time_shift_enabled && !d.time_shift_set_ then
                { d with time_shift_ := (t : Int), time_shift_set_ := true }
              else d
    some ({ d1 with time_high_ := (t : Int) - d1.time_shift_ }, none)
  | .cd x y p dt =>
    let ts := d.time_high_ + (dt : Int)
    some ({ d with last_timestamp_ := ts }, some ⟨x, y, p, ts⟩)
  | .unknown _ => none

/-- `decode_impl(ev, evend)`.  Modelled from the spec: scans the buffer
record by record in stream order, dispatching decoded CD events to the
sink in that order; an unknown discriminant stops the scan and the
call reports failure (`false`).  The middle component lists the sink
invocations of this call, in order. -/
def SampleDecoder.decode_impl : SampleDecoder → List RawRecord →
    SampleDecoder × List EventCD × Bool
  | d, [] => (d, [], true)
  | d, r :: rest =>
    match d.decodeRecord r with
    | none => (d, [], false)
    | some (d1, oev) =>
      let res := decode_impl d1 rest
      (res.1, oev.toList ++ res.2.1, res.2.2)

/-- Is this record a timer-high marker? -/
def RawRecord.isTH : RawRecord → Bool
  | .timerHigh _ => true
  | _ => false

/-- Is this record a CD event record? -/
def RawRecord.isCD : RawRecord → Bool
  | .cd _ _ _ _ => true
  | _ => false

/-- Does this record carry a discriminant of the closed record-kind
set? -/
def RawRecord.isValid : RawRecord → Bool
  | .unknown _ => false
  | _ => true

/-- Raw in-stream timestamps of the decodable records of a stream,
reconstructed from a starting high-order value `th0`: a timer-high
record's raw time is its own value, which also becomes the new
high-order base; a CD record's raw time is the current base plus its
low-order field. -/
def rawTimes : Nat → List RawRecord → List Nat
  | _, [] => []
  | th0, .cd _ _ _ dt :: rest => (th0 + dt) :: rawTimes th0 rest
  | _, .timerHigh t :: rest => t :: rawTimes t rest
  | th0, .unknown _ :: rest => rawTimes th0 rest

/-- The CD events of a stream carrying their raw (unshifted)
in-stream timestamps, in stream order. -/
def rawEvents : Nat → List RawRecord → List EventCD
  | _, [] => []
  | th0, .cd x y p dt :: rest => ⟨x, y, p, ((th0 + dt : Nat) : Int)⟩ :: rawEvents th0 rest
  | _, .timerHigh t :: rest => rawEvents t rest
  | th0, .unknown _ :: rest => rawEvents th0 rest

/-- High-order base value after a stream has been scanned. -/
def finalTH : Nat → List RawRecord → Nat
  | th0, [] => th0
  | _, .timerHigh t :: rest => finalTH t rest
  | th0, .cd _ _ _ _ :: rest => finalTH th0 rest
  | th0, .unknown _ :: rest => finalTH th0 rest

/-- `chain_le m l`: `m ≤ l₀ ≤ l₁ ≤ …`, the list is bounded below by
`m` and non-decreasing. -/
def chain_le : Nat → List Nat → Bool
  | _, [] => true
  | m, x :: rest => decide (m ≤ x) && chain_le x rest

/-- `chainI_le m l`: `m ≤ l₀ ≤ l₁ ≤ …` over integers. -/
def chainI_le : Int → List Int → Bool
  | _, [] => true
  | m, x :: rest => decide (m ≤ x) && chainI_le x rest

/-- Last element of a list with a default for the empty list. -/
def lastD : Nat → List Nat → Nat
  | m, [] => m
  | _, x :: rest => lastD x rest

/-- No CD record appears before the first timer-high record of the
stream. -/
def noCDbeforeTH : List RawRecord → Bool
  | [] => true
  | .cd _ _ _ _ :: _ => false
  | .timerHigh _ :: _ => true
  | .unknown _ :: rest => noCDbeforeTH rest

/-- The payload a CD record hands to the sink (timestamp aside). -/
def cdPayload : RawRecord → Option (Nat × Nat × Bool)
  | .cd x y p _ => some (x, y, p)
  | _ => none

/-- The payload carried by a dispatched event. -/
def evPayload (e : EventCD) : Nat × Nat × Bool := (e.x, e.y, e.p)

/-- Decoder states after each of a sequence of successive
`decode_impl` calls. -/
def decodeCalls : SampleDecoder → List (List RawRecord) → List SampleDecoder
  | _, [] => []
  | d, b :: rest =>
    let d1 := (SampleDecoder.decode_impl d b).1
    d1 :: decodeCalls d1 rest

/-- One operation of the decoder's public interface, for statements
about whole lifetimes. -/
inductive DecoderOp where
  | decodeOp (buf : List RawRecord)
  | resetTimestampOp (t : Int)
  | resetTimestampShiftOp (s : Int)
  | getLastTimestampOp
  | getTimestampShiftOp (o : Int)
deriving DecidableEq, Repr

/-- Is this operation a `reset_timestamp` call? -/
def DecoderOp.isResetTimestamp : DecoderOp → Bool
  | .resetTimestampOp _ => true
  | _ => false

/-- Effect of one interface operation: successor state and the events
dispatched during it. -/
def runOp (d : SampleDecoder) : DecoderOp → SampleDecoder × List EventCD
  | .decodeOp buf => ((d.decode_impl buf).1, (d.decode_impl buf).2.1)
  | .resetTimestampOp t => ((d.reset_timestamp t).2, [])
  | .resetTimestampShiftOp s => ((d.reset_timestamp_shift s).2, [])
  | .getLastTimestampOp => (d.get_last_timestamp.2, [])
  | .getTimestampShiftOp o => ((d.get_timestamp_shift o).2.2, [])

/-- A whole lifetime: final state and all events dispatched, in
order. -/
def run : SampleDecoder → List DecoderOp → SampleDecoder × List EventCD
  | d, [] => (d, [])
  | d, op :: rest =>
    let st := runOp d op
    let res := run st.1 rest
    (res.1, st.2 ++ res.2)

/-- The records actually processed over a lifetime: for each decode
call, the prefix of its buffer up to (excluding) the first record with
an unknown discriminant. -/
def processedStream : List DecoderOp → List RawRecord
  | [] => []
  | .decodeOp buf :: rest => buf.takeWhile RawRecord.isValid ++ processedStream rest
  | .resetTimestampOp _ :: rest => processedStream rest
  | .resetTimestampShiftOp _ :: rest => processedStream rest
  | .getLastTimestampOp :: rest => processedStream rest
  | .getTimestampShiftOp _ :: rest => processedStream rest

/-- C9: a freshly constructed decoder, before any decode or reset
call, has `last_timestamp_ = 0`, `time_shift_ = 0` and
`time_shift_set_ = false`, so `get_last_timestamp` returns `0` and
`get_timestamp_shift` reports failure. -/
theorem c9_fresh_state (e : Bool) (o : Int) :
    (SampleDecoder.init e).last_timestamp_ = 0 ∧
    (SampleDecoder.init e).time_shift_ = 0 ∧
    (SampleDecoder.init e).time_shift_set_ = false ∧
    ((SampleDecoder.init e).get_last_timestamp).1 = 0 ∧
    ((SampleDecoder.init e).get_timestamp_shift o).1 = false := by
  refine ⟨rfl, rfl, rfl, rfl, ?_⟩
  simp [SampleDecoder.get_timestamp_shift, SampleDecoder.init]

/-- C10: `get_last_timestamp` and `get_timestamp_shift` are pure
queries: the decoder state after either call — including a failed
`get_timestamp_shift` — equals the state before it, in every field. -/
theorem c10_getters_pure (d : SampleDecoder) (o : Int) :
    (d.get_last_timestamp).2 = d ∧ (d.get_timestamp_shift o).2.2 = d := by
  refine ⟨rfl, ?_⟩
  unfold SampleDecoder.get_timestamp_shift
  by_cases h : d.time_shift_set_ <;> simp [h]

/-- C3: `get_timestamp_shift` succeeds exactly when `time_shift_set_`
is true; on success the out parameter receives `time_shift_`, on
failure the out parameter is left untouched, so an unknown shift is
never observable as a written value. -/
theorem c3_get_timestamp_shift_spec (d : SampleDecoder) (o : Int) :
    ((d.get_timestamp_shift o).1 = d.time_shift_set_) ∧
    ((d.get_timestamp_shift o).2.1 =
      if d.time_shift_set_ then d.time_shift_ else o) := by
  unfold SampleDecoder.get_timestamp_shift
  by_cases h : d.time_shift_set_ <;> simp [h]

/-- C4: `reset_timestamp_shift` fails and changes no state when time
shifting is disabled for the instance; when enabled it installs the
given shift and marks it known, unconditionally, and succeeds. -/
theorem c4_reset_timestamp_shift_spec (d : SampleDecoder) (s : Int) :
    ((d.reset_timestamp_shift s).1 = d.time_shift_enabled) ∧
    ((d.reset_timestamp_shift s).2 =
      if d.time_shift_enabled then
        { d with time_shift_ := s, time_shift_set_ := true }
      else d) := by
  unfold SampleDecoder.reset_timestamp_shift
  by_cases h : d.time_shift_enabled <;> simp [h]

/-- C5: after a successful `reset_timestamp t`, `get_last_timestamp`
returns `t`, and decoding a buffer whose first record is a CD record
with raw low-order delta `dt` emits a first event timestamped
`t + dt`, computed from the new baseline. -/
theorem c5_reset_timestamp_rebases (d : SampleDecoder) (t : Int)
    (x y : Nat) (p : Bool) (dt : Nat) (rest : List RawRecord) :
    ((d.reset_timestamp t).1 = true) ∧
    (((d.reset_timestamp t).2.get_last_timestamp).1 = t) ∧
    (((d.reset_timestamp t).2.decode_impl (.cd x y p dt :: rest)).2.1.head? =
      some ⟨x, y, p, t + (dt : Int)⟩) := by
  refine ⟨rfl, rfl, ?_⟩
  simp [SampleDecoder.decode_impl, SampleDecoder.decodeRecord,
    SampleDecoder.reset_timestamp]

/-- C6: a buffer holding one valid CD record followed by a record
whose discriminant is outside the closed record-kind set yields
exactly one sink invocation (the CD record's event), a failure report
for the call, and no processing of any byte past the invalid record
(the trailing records are ignored whatever they are). -/
theorem c6_unknown_discriminant_halts (d : SampleDecoder) (x y : Nat) (p : Bool)
    (dt : Nat) (disc : Nat) (rest : List RawRecord) :
    ((d.decode_impl (.cd x y p dt :: .unknown disc :: rest)).2.1 =
      [⟨x, y, p, d.time_high_ + (dt : Int)⟩]) ∧
    ((d.decode_impl (.cd x y p dt :: .unknown disc :: rest)).2.2 = false) ∧
    ((d.decode_impl (.cd x y p dt :: .unknown disc :: rest)).1 =
      { d with last_timestamp_ := d.time_high_ + (dt : Int) }) := by
  refine ⟨?_, ?_, ?_⟩ <;>
    simp [SampleDecoder.decode_impl, SampleDecoder.decodeRecord]

/-- C7: sink invocations happen exactly in the order the records
appear in the buffer: over any buffer of valid records the payloads
dispatched to the sink are exactly the payloads of the CD records, in
stream order, with no reordering across kinds. -/
theorem c7_sink_order_matches_stream (d : SampleDecoder) (buf : List RawRecord)
    (h : ∀ r ∈ buf, r.isValid = true) :
    ((d.decode_impl buf).2.1).map evPayload = buf.filterMap cdPayload := by
  induction buf generalizing d with
  | nil => simp [SampleDecoder.decode_impl]
  | cons r rest ih =>
    have hrest : ∀ q ∈ rest, q.isValid = true :=
      fun q hq => h q (List.mem_cons_of_mem _ hq)
    cases r with
    | cd x y p dt =>
      simp [SampleDecoder.decode_impl, SampleDecoder.decodeRecord, cdPayload,
        evPayload, ih _ hrest]
    | timerHigh t =>
      simp [SampleDecoder.decode_impl, SampleDecoder.decodeRecord, cdPayload,
        ih _ hrest]
    | unknown disc =>
      have hv := h (.unknown disc) (List.mem_cons_self _ _)
      simp [RawRecord.isValid] at hv

/-- Witness for C7 at a concrete mixed-kind buffer. -/
theorem c7_sink_order_matches_stream_witness :
    (∀ r ∈ [RawRecord.cd 1 2 true 3, RawRecord.timerHigh 7, RawRecord.cd 4 5 false 6],
      r.isValid = true) ∧
    (((SampleDecoder.init false).decode_impl
        [RawRecord.cd 1 2 true 3, RawRecord.timerHigh 7,
          RawRecord.cd 4 5 false 6]).2.1).map evPayload =
      [RawRecord.cd 1 2 true 3, RawRecord.timerHigh 7,
        RawRecord.cd 4 5 false 6].filterMap cdPayload :=
  ⟨by decide, c7_sink_order_matches_stream (SampleDecoder.init false) _ (by decide)⟩

/-- Decoding a buffer of valid, non-marker records touches neither the
shift state nor the high-order accumulator. -/
theorem decode_preserves_shift_state (s : List RawRecord) :
    ∀ d : SampleDecoder, (∀ r ∈ s, r.isTH = false ∧ r.isValid = true) →
    (d.decode_impl s).1.time_shift_ = d.time_shift_ ∧
    (d.decode_impl s).1.time_shift_set_ = d.time_shift_set_ ∧
    (d.decode_impl s).1.time_high_ = d.time_high_ ∧
    (d.decode_impl s).1.time_shift_enabled = d.time_shift_enabled := by
  induction s with
  | nil => exact fun d _ => ⟨rfl, rfl, rfl, rfl⟩
  | cons r rest ih =>
    intro d h
    cases r with
    | cd x y p dt =>
      have hrest : ∀ q ∈ rest, q.isTH = false ∧ q.isValid = true :=
        fun q hq => h q (List.mem_cons_of_mem _ hq)
      have hstep := ih { d with last_timestamp_ := d.time_high_ + (dt : Int) } hrest
      simpa [SampleDecoder.decode_impl, SampleDecoder.decodeRecord] using hstep
    | timerHigh t =>
      have hv := (h (.timerHigh t) (List.mem_cons_self _ _)).1
      simp [RawRecord.isTH] at hv
    | unknown disc =>
      have hv := (h (.unknown disc) (List.mem_cons_self _ _)).2
      simp [RawRecord.isValid] at hv

/-- Once the shift is known it never changes during decoding, and the
events dispatched are the raw in-stream events with the shift
subtracted from every timestamp. -/
theorem decode_events_shifted (s : List RawRecord) :
    ∀ (d : SampleDecoder) (B : Nat), d.time_shift_set_ = true →
    d.time_high_ = (B : Int) - d.time_shift_ →
    (d.decode_impl s).2.1 =
      (rawEvents B (s.takeWhile RawRecord.isValid)).map
        (fun e => { e with t := e.t - d.time_shift_ }) ∧
    (d.decode_impl s).1.time_shift_ = d.time_shift_ ∧
    (d.decode_impl s).1.time_shift_set_ = true ∧
    (d.decode_impl s).1.time_high_ =
      ((finalTH B (s.takeWhile RawRecord.isValid) : Nat) : Int) - d.time_shift_ := by
  induction s with
  | nil =>
    intro d B hset hhigh
    refine ⟨rfl, rfl, hset, ?_⟩
    simpa [finalTH] using hhigh
  | cons r rest ih =>
    intro d B hset hhigh
    cases r with
    | cd x y p dt =>
      have hstep := ih { d with last_timestamp_ := d.time_high_ + (dt : Int) } B hset hhigh
      refine ⟨?_, hstep.2.1, hstep.2.2.1, ?_⟩
      · simp only [SampleDecoder.decode_impl, SampleDecoder.decodeRecord,
          List.takeWhile_cons, RawRecord.isValid, rawEvents, List.map_cons,
          Option.toList_some, List.cons_append, List.nil_append,
          List.cons_eq_cons]
        refine ⟨?_, hstep.1⟩
        have harith : d.time_high_ + (dt : Int) =
            ((B + dt : Nat) : Int) - d.time_shift_ := by
          rw [hhigh]
          push_cast
          ring
        rw [harith]
      · simp only [SampleDecoder.decode_impl, SampleDecoder.decodeRecord]
        simpa [List.takeWhile_cons, RawRecord.isValid, finalTH] using hstep.2.2.2
    | timerHigh t =>
      have hcond : (d.time_shift_enabled && !d.time_shift_set_) = false := by
        simp [hset]
      have hstep := ih { d with time_high_ := (t : Int) - d.time_shift_ } t hset rfl
      refine ⟨?_, ?_, ?_, ?_⟩
      · simpa [SampleDecoder.decode_impl, SampleDecoder.decodeRecord, hcond,
          List.takeWhile_cons, RawRecord.isValid, rawEvents] using hstep.1
      · simpa [SampleDecoder.decode_impl, SampleDecoder.decodeRecord, hcond]
          using hstep.2.1
      · simpa [SampleDecoder.decode_impl, SampleDecoder.decodeRecord, hcond]
          using hstep.2.2.1
      · simpa [SampleDecoder.decode_impl, SampleDecoder.decodeRecord, hcond,
          List.takeWhile_cons, RawRecord.isValid, finalTH] using hstep.2.2.2
    | unknown disc =>
      refine ⟨?_, rfl, hset, ?_⟩
      · simp [SampleDecoder.decode_impl, SampleDecoder.decodeRecord,
          List.takeWhile_cons, RawRecord.isValid, rawEvents]
      · simpa [SampleDecoder.decode_impl, SampleDecoder.decodeRecord,
          List.takeWhile_cons, RawRecord.isValid, finalTH] using hhigh

/-- Decoding a concatenation of buffers, the first of which is fully
valid, is decoding them in sequence: states compose and the dispatched
events concatenate. -/
theorem decode_impl_append (a : List RawRecord) :
    ∀ (b : List RawRecord) (d : SampleDecoder), (∀ r ∈ a, r.isValid = true) →
    (d.decode_impl (a ++ b)).1 = ((d.decode_impl a).1.decode_impl b).1 ∧
    (d.decode_impl (a ++ b)).2.1 =
      (d.decode_impl a).2.1 ++ ((d.decode_impl a).1.decode_impl b).2.1 := by
  induction a with
  | nil => intro b d _; exact ⟨rfl, rfl⟩
  | cons r rest ih =>
    intro b d h
    have hrest : ∀ q ∈ rest, q.isValid = true :=
      fun q hq => h q (List.mem_cons_of_mem _ hq)
    cases r with
    | cd x y p dt =>
      have hstep := ih b { d with last_timestamp_ := d.time_high_ + (dt : Int) } hrest
      constructor
      · simpa [SampleDecoder.decode_impl, SampleDecoder.decodeRecord] using hstep.1
      · simpa [SampleDecoder.decode_impl, SampleDecoder.decodeRecord] using hstep.2
    | timerHigh t =>
      by_cases hc : (d.time_shift_enabled && !d.time_shift_set_) = true
      · have hstep := ih b { d with time_shift_ := (t : Int), time_shift_set_ := true, time_high_ := (t : Int) - (t : Int) } hrest
        constructor
        · simpa [SampleDecoder.decode_impl, SampleDecoder.decodeRecord, hc]
            using hstep.1
        · simpa [SampleDecoder.decode_impl, SampleDecoder.decodeRecord, hc]
            using hstep.2
      · have hstep := ih b { d with time_high_ := (t : Int) - d.time_shift_ } hrest
        constructor
        · simpa [SampleDecoder.decode_impl, SampleDecoder.decodeRecord, hc]
            using hstep.1
        · simpa [SampleDecoder.decode_impl, SampleDecoder.decodeRecord, hc]
            using hstep.2
    | unknown disc =>
      have hv := h (.unknown disc) (List.mem_cons_self _ _)
      simp [RawRecord.isValid] at hv

/-- C1: with time shifting enabled, once the first timer-high record
of the stream (raw time `T0`) has been decoded, `time_shift_` equals
`T0` and is marked known; it still equals `T0` after any further
decoding (a later marker never changes it), and every subsequently
decoded CD event is dispatched with its raw in-stream timestamp minus
`T0`. -/
theorem c1_shift_set_once_and_applied (pre post : List RawRecord) (T0 : Nat)
    (hpre : ∀ r ∈ pre, r.isTH = false ∧ r.isValid = true) :
    ((SampleDecoder.init true).decode_impl
        (pre ++ [RawRecord.timerHigh T0])).1.time_shift_ = (T0 : Int) ∧
    ((SampleDecoder.init true).decode_impl
        (pre ++ [RawRecord.timerHigh T0])).1.time_shift_set_ = true ∧
    ((((SampleDecoder.init true).decode_impl
        (pre ++ [RawRecord.timerHigh T0])).1.decode_impl post).1.time_shift_ =
      (T0 : Int)) ∧
    ((((SampleDecoder.init true).decode_impl
        (pre ++ [RawRecord.timerHigh T0])).1.decode_impl post).1.time_shift_set_ =
      true) ∧
    ((((SampleDecoder.init true).decode_impl
        (pre ++ [RawRecord.timerHigh T0])).1.decode_impl post).2.1 =
      (rawEvents T0 (post.takeWhile RawRecord.isValid)).map
        (fun e => { e with t := e.t - (T0 : Int) })) := by
  obtain ⟨h1, h2, h3, h4⟩ := decode_preserves_shift_state pre (SampleDecoder.init true) hpre
  have happ := decode_impl_append pre [RawRecord.timerHigh T0] (SampleDecoder.init true)
    (fun r hr => (hpre r hr).2)
  have hcond : (((SampleDecoder.init true).decode_impl pre).1.time_shift_enabled &&
      !((SampleDecoder.init true).decode_impl pre).1.time_shift_set_) = true := by
    rw [h4, h2]
    rfl
  have hD :
      ((SampleDecoder.init true).decode_impl (pre ++ [RawRecord.timerHigh T0])).1 =
      { ((SampleDecoder.init true).decode_impl pre).1 with
          time_shift_ := (T0 : Int), time_shift_set_ := true,
          time_high_ := (T0 : Int) - (T0 : Int) } := by
    rw [happ.1]
    simp [SampleDecoder.decode_impl, SampleDecoder.decodeRecord, hcond]
  have hDsh :
      ((SampleDecoder.init true).decode_impl
        (pre ++ [RawRecord.timerHigh T0])).1.time_shift_ = (T0 : Int) := by
    rw [hD]
  have hDset :
      ((SampleDecoder.init true).decode_impl
        (pre ++ [RawRecord.timerHigh T0])).1.time_shift_set_ = true := by
    rw [hD]
  have hDhigh :
      ((SampleDecoder.init true).decode_impl
        (pre ++ [RawRecord.timerHigh T0])).1.time_high_ =
      (T0 : Int) -
        ((SampleDecoder.init true).decode_impl
          (pre ++ [RawRecord.timerHigh T0])).1.time_shift_ := by
    rw [hD]
  have hmain := decode_events_shifted post
    ((SampleDecoder.init true).decode_impl (pre ++ [RawRecord.timerHigh T0])).1 T0
    hDset hDhigh
  refine ⟨hDsh, hDset, ?_, hmain.2.2.1, ?_⟩
  · rw [hmain.2.1, hDsh]
  · rw [hmain.1, hDsh]

/-- Witness for C1: a CD record before the marker, then marker raw
time 100, then CD at raw 107, a second marker at 200 and a CD at raw
205; the two post-marker events come out shifted by 100. -/
theorem c1_shift_set_once_and_applied_witness :
    (∀ r ∈ [RawRecord.cd 0 0 true 3], r.isTH = false ∧ r.isValid = true) ∧
    ((((SampleDecoder.init true).decode_impl
        ([RawRecord.cd 0 0 true 3] ++ [RawRecord.timerHigh 100])).1.decode_impl
        [RawRecord.cd 1 1 false 7, RawRecord.timerHigh 200,
          RawRecord.cd 2 2 true 5]).2.1 =
      [⟨1, 1, false, 7⟩, ⟨2, 2, true, 105⟩]) := by
  refine ⟨by decide, ?_⟩
  rw [(c1_shift_set_once_and_applied [RawRecord.cd 0 0 true 3]
    [RawRecord.cd 1 1 false 7, RawRecord.timerHigh 200, RawRecord.cd 2 2 true 5]
    100 (by decide)).2.2.2.2]
  decide

/-- The high-order base after a concatenated stream is reached in two
stages. -/
theorem finalTH_append (a : List RawRecord) :
    ∀ (b : List RawRecord) (th0 : Nat),
    finalTH th0 (a ++ b) = finalTH (finalTH th0 a) b := by
  induction a with
  | nil => intro b th0; rfl
  | cons r rest ih =>
    intro b th0
    cases r with
    | cd x y p dt => simp [finalTH, ih]
    | timerHigh t => simp [finalTH, ih]
    | unknown disc => simp [finalTH, ih]

/-- Raw-event reconstruction distributes over concatenated streams,
the second part starting from the high-order base left by the first. -/
theorem rawEvents_append (a : List RawRecord) :
    ∀ (b : List RawRecord) (th0 : Nat),
    rawEvents th0 (a ++ b) = rawEvents th0 a ++ rawEvents (finalTH th0 a) b := by
  induction a with
  | nil => intro b th0; rfl
  | cons r rest ih =>
    intro b th0
    cases r with
    | cd x y p dt => simp [rawEvents, finalTH, ih]
    | timerHigh t => simp [rawEvents, finalTH, ih]
    | unknown disc => simp [rawEvents, finalTH, ih]

/-- With time shifting disabled, decoding never touches the shift
state. -/
theorem decode_disabled_shift (s : List RawRecord) :
    ∀ d : SampleDecoder, d.time_shift_enabled = false →
    (d.decode_impl s).1.time_shift_enabled = false ∧
    (d.decode_impl s).1.time_shift_ = d.time_shift_ ∧
    (d.decode_impl s).1.time_shift_set_ = d.time_shift_set_ := by
  induction s with
  | nil => exact fun d he => ⟨he, rfl, rfl⟩
  | cons r rest ih =>
    intro d he
    cases r with
    | cd x y p dt =>
      have hstep := ih { d with last_timestamp_ := d.time_high_ + (dt : Int) } he
      simpa [SampleDecoder.decode_impl, SampleDecoder.decodeRecord] using hstep
    | timerHigh t =>
      have hcond : (d.time_shift_enabled && !d.time_shift_set_) = false := by
        simp [he]
      have hstep := ih { d with time_high_ := (t : Int) - d.time_shift_ } he
      simpa [SampleDecoder.decode_impl, SampleDecoder.decodeRecord, hcond] using hstep
    | unknown disc =>
      exact ⟨he, rfl, rfl⟩

/-- With time shifting disabled, the accumulator tracks the raw
high-order base exactly and the dispatched events carry their raw
in-stream timestamps. -/
theorem decode_disabled_raw (s : List RawRecord) :
    ∀ (d : SampleDecoder) (th0 : Nat), d.time_shift_enabled = false →
    d.time_shift_ = 0 → d.time_high_ = (th0 : Int) →
    (d.decode_impl s).2.1 = rawEvents th0 (s.takeWhile RawRecord.isValid) ∧
    (d.decode_impl s).1.time_high_ =
      ((finalTH th0 (s.takeWhile RawRecord.isValid) : Nat) : Int) := by
  induction s with
  | nil =>
    intro d th0 he hsh hhigh
    exact ⟨rfl, by simpa [finalTH] using hhigh⟩
  | cons r rest ih =>
    intro d th0 he hsh hhigh
    cases r with
    | cd x y p dt =>
      have hstep := ih { d with last_timestamp_ := d.time_high_ + (dt : Int) } th0 he hsh hhigh
      refine ⟨?_, ?_⟩
      · simp only [SampleDecoder.decode_impl, SampleDecoder.decodeRecord,
          List.takeWhile_cons, RawRecord.isValid, rawEvents, Option.toList_some,
          List.cons_append, List.nil_append, List.cons_eq_cons]
        refine ⟨?_, hstep.1⟩
        have harith : d.time_high_ + (dt : Int) = ((th0 + dt : Nat) : Int) := by
          rw [hhigh]
          push_cast
          ring
        rw [harith]
      · simp only [SampleDecoder.decode_impl, SampleDecoder.decodeRecord]
        simpa [List.takeWhile_cons, RawRecord.isValid, finalTH] using hstep.2
    | timerHigh t =>
      have hcond : (d.time_shift_enabled && !d.time_shift_set_) = false := by
        simp [he]
      have hstep := ih { d with time_high_ := (t : Int) - d.time_shift_ } t he hsh
        (by rw [hsh]; ring)
      refine ⟨?_, ?_⟩
      · simpa [SampleDecoder.decode_impl, SampleDecoder.decodeRecord, hcond,
          List.takeWhile_cons, RawRecord.isValid, rawEvents] using hstep.1
      · simpa [SampleDecoder.decode_impl, SampleDecoder.decodeRecord, hcond,
          List.takeWhile_cons, RawRecord.isValid, finalTH] using hstep.2
    | unknown disc =>
      refine ⟨?_, ?_⟩
      · simp [SampleDecoder.decode_impl, SampleDecoder.decodeRecord,
          List.takeWhile_cons, RawRecord.isValid, rawEvents]
      · simpa [SampleDecoder.decode_impl, SampleDecoder.decodeRecord,
          List.takeWhile_cons, RawRecord.isValid, finalTH] using hhigh

/-- With time shifting disabled, no operation of a whole lifetime ever
touches the shift state. -/
theorem run_disabled_shift (ops : List DecoderOp) :
    ∀ d : SampleDecoder, d.time_shift_enabled = false →
    (run d ops).1.time_shift_enabled = false ∧
    (run d ops).1.time_shift_ = d.time_shift_ ∧
    (run d ops).1.time_shift_set_ = d.time_shift_set_ := by
  induction ops with
  | nil => exact fun d he => ⟨he, rfl, rfl⟩
  | cons op rest ih =>
    intro d he
    cases op with
    | decodeOp buf =>
      obtain ⟨q1, q2, q3⟩ := decode_disabled_shift buf d he
      obtain ⟨w1, w2, w3⟩ := ih (d.decode_impl buf).1 q1
      refine ⟨?_, ?_, ?_⟩ <;> simp only [run, runOp]
      · exact w1
      · rw [w2, q2]
      · rw [w3, q3]
    | resetTimestampOp t =>
      have hstep := ih { d with last_timestamp_ := t, time_high_ := t } he
      simpa [run, runOp, SampleDecoder.reset_timestamp] using hstep
    | resetTimestampShiftOp s =>
      have hstep := ih d he
      simpa [run, runOp, SampleDecoder.reset_timestamp_shift, he] using hstep
    | getLastTimestampOp =>
      have hstep := ih d he
      simpa [run, runOp, SampleDecoder.get_last_timestamp] using hstep
    | getTimestampShiftOp o =>
      have hstep := ih d he
      by_cases hs : d.time_shift_set_ = true <;>
        simpa [run, runOp, SampleDecoder.get_timestamp_shift, hs] using hstep

/-- With time shifting disabled and no `reset_timestamp` call, the
events dispatched over a whole lifetime are exactly the raw in-stream
events of the processed records. -/
theorem run_disabled_raw (ops : List DecoderOp) :
    ∀ (d : SampleDecoder) (th0 : Nat), (∀ op ∈ ops, op.isResetTimestamp = false) →
    d.time_shift_enabled = false → d.time_shift_ = 0 → d.time_high_ = (th0 : Int) →
    (run d ops).2 = rawEvents th0 (processedStream ops) ∧
    (run d ops).1.time_high_ =
      ((finalTH th0 (processedStream ops) : Nat) : Int) := by
  induction ops with
  | nil =>
    intro d th0 _ he hsh hhigh
    exact ⟨rfl, by simpa [processedStream, finalTH] using hhigh⟩
  | cons op rest ih =>
    intro d th0 hnr he hsh hhigh
    have hnrest : ∀ q ∈ rest, q.isResetTimestamp = false :=
      fun q hq => hnr q (List.mem_cons_of_mem _ hq)
    cases op with
    | decodeOp buf =>
      obtain ⟨e1, e2⟩ := decode_disabled_raw buf d th0 he hsh hhigh
      obtain ⟨q1, q2, q3⟩ := decode_disabled_shift buf d he
      obtain ⟨w1, w2⟩ := ih (d.decode_impl buf).1
        (finalTH th0 (buf.takeWhile RawRecord.isValid)) hnrest q1 (by rw [q2, hsh]) e2
      refine ⟨?_, ?_⟩
      · simp only [run, runOp, processedStream]
        rw [w1, e1, rawEvents_append]
      · simp only [run, runOp, processedStream]
        rw [w2, finalTH_append]
    | resetTimestampOp t =>
      have hv := hnr (.resetTimestampOp t) (List.mem_cons_self _ _)
      simp [DecoderOp.isResetTimestamp] at hv
    | resetTimestampShiftOp s =>
      have hstep := ih d th0 hnrest he hsh hhigh
      simpa [run, runOp, SampleDecoder.reset_timestamp_shift, he, processedStream]
        using hstep
    | getLastTimestampOp =>
      have hstep := ih d th0 hnrest he hsh hhigh
      simpa [run, runOp, SampleDecoder.get_last_timestamp, processedStream] using hstep
    | getTimestampShiftOp o =>
      have hstep := ih d th0 hnrest he hsh hhigh
      by_cases hs : d.time_shift_set_ = true <;>
        simpa [run, runOp, SampleDecoder.get_timestamp_shift, hs, processedStream]
          using hstep

/-- C8 (as stated) is refuted: with shifting disabled, a lifetime
containing a `reset_timestamp` call dispatches an event whose
timestamp differs from its raw in-stream timestamp.  Here the decoder
sees a timer-high of 10, is reset to 0, and then timestamps the CD
record of raw time 11 with 1. -/
theorem c8_counterexample :
    ¬ (∀ ops : List DecoderOp,
        (run (SampleDecoder.init false) ops).2 =
          rawEvents 0 (processedStream ops)) := by
  intro h
  have hx := h [.decodeOp [.timerHigh 10], .resetTimestampOp 0,
    .decodeOp [.cd 0 0 true 1]]
  revert hx
  decide

/-- C8 (amended): for a decoder constructed with time shifting
disabled, `time_shift_` stays 0 and `time_shift_set_` stays false over
any lifetime, so `get_timestamp_shift` always reports unknown; and as
long as the lifetime contains no `reset_timestamp` call, every
dispatched event carries exactly the raw in-stream timestamp of its
record. -/
theorem c8_disabled_true_noop (ops : List DecoderOp) (o : Int) :
    ((run (SampleDecoder.init false) ops).1.time_shift_ = 0 ∧
     (run (SampleDecoder.init false) ops).1.time_shift_set_ = false ∧
     ((run (SampleDecoder.init false) ops).1.get_timestamp_shift o).1 = false) ∧
    ((∀ op ∈ ops, op.isResetTimestamp = false) →
      (run (SampleDecoder.init false) ops).2 =
        rawEvents 0 (processedStream ops)) := by
  obtain ⟨w1, w2, w3⟩ := run_disabled_shift ops (SampleDecoder.init false) rfl
  refine ⟨⟨w2, w3, ?_⟩, ?_⟩
  · have hfalse : (run (SampleDecoder.init false) ops).1.time_shift_set_ = false := w3
    simp [SampleDecoder.get_timestamp_shift, hfalse]
  · intro hnr
    exact (run_disabled_raw ops (SampleDecoder.init false) 0 hnr rfl rfl rfl).1

/-- Witness for C8 (amended) on a concrete reset-free lifetime mixing
decode calls, a getter and a failing shift reset. -/
theorem c8_disabled_true_noop_witness :
    (∀ op ∈ [DecoderOp.decodeOp [RawRecord.timerHigh 10, RawRecord.cd 1 2 true 5],
        DecoderOp.getLastTimestampOp, DecoderOp.resetTimestampShiftOp 3,
        DecoderOp.decodeOp [RawRecord.cd 0 0 false 7]],
      op.isResetTimestamp = false) ∧
    (run (SampleDecoder.init false)
        [DecoderOp.decodeOp [RawRecord.timerHigh 10, RawRecord.cd 1 2 true 5],
          DecoderOp.getLastTimestampOp, DecoderOp.resetTimestampShiftOp 3,
          DecoderOp.decodeOp [RawRecord.cd 0 0 false 7]]).2 =
      rawEvents 0 (processedStream
        [DecoderOp.decodeOp [RawRecord.timerHigh 10, RawRecord.cd 1 2 true 5],
          DecoderOp.getLastTimestampOp, DecoderOp.resetTimestampShiftOp 3,
          DecoderOp.decodeOp [RawRecord.cd 0 0 false 7]]) :=
  ⟨by decide,
    (c8_disabled_true_noop
      [DecoderOp.decodeOp [RawRecord.timerHigh 10, RawRecord.cd 1 2 true 5],
        DecoderOp.getLastTimestampOp, DecoderOp.resetTimestampShiftOp 3,
        DecoderOp.decodeOp [RawRecord.cd 0 0 false 7]] 0).2 (by decide)⟩

/-- Raw-time reconstruction distributes over concatenated streams. -/
theorem rawTimes_append (a : List RawRecord) :
    ∀ (b : List RawRecord) (th0 : Nat),
    rawTimes th0 (a ++ b) = rawTimes th0 a ++ rawTimes (finalTH th0 a) b := by
  induction a with
  | nil => intro b th0; rfl
  | cons r rest ih =>
    intro b th0
    cases r with
    | cd x y p dt => simp [rawTimes, finalTH, ih]
    | timerHigh t => simp [rawTimes, finalTH, ih]
    | unknown disc => simp [rawTimes, finalTH, ih]

/-- A bounded chain over a concatenation splits at the last element of
the first part. -/
theorem chain_le_append (l1 : List Nat) :
    ∀ (l2 : List Nat) (m : Nat),
    chain_le m (l1 ++ l2) = (chain_le m l1 && chain_le (lastD m l1) l2) := by
  induction l1 with
  | nil => intro l2 m; simp [chain_le, lastD]
  | cons x rest ih =>
    intro l2 m
    simp [chain_le, lastD, ih, Bool.and_assoc]

/-- If no CD record precedes the first timer-high of a concatenation,
none precedes it in the first part. -/
theorem noCDbeforeTH_append_left (a : List RawRecord) :
    ∀ b : List RawRecord, noCDbeforeTH (a ++ b) = true → noCDbeforeTH a = true := by
  induction a with
  | nil => intro b _; rfl
  | cons r rest ih =>
    intro b h
    cases r with
    | cd x y p dt => simp [noCDbeforeTH] at h
    | timerHigh t => rfl
    | unknown disc => exact ih b (by simpa [noCDbeforeTH] using h)

/-- If the first part of a concatenation holds no timer-high record,
the no-CD-before-first-marker condition passes to the second part. -/
theorem noCDbeforeTH_append_right (a : List RawRecord) :
    ∀ b : List RawRecord, (∀ r ∈ a, r.isTH = false) →
    noCDbeforeTH (a ++ b) = true → noCDbeforeTH b = true := by
  induction a with
  | nil => intro b _ h; exact h
  | cons r rest ih =>
    intro b hth h
    cases r with
    | cd x y p dt => simp [noCDbeforeTH] at h
    | timerHigh t =>
      have := hth (.timerHigh t) (List.mem_cons_self _ _)
      simp [RawRecord.isTH] at this
    | unknown disc =>
      exact ih b (fun q hq => hth q (List.mem_cons_of_mem _ hq))
        (by simpa [noCDbeforeTH] using h)

/-- Once `time_shift_set_` is true it stays true through any decode
call. -/
theorem decode_set_mono (s : List RawRecord) :
    ∀ d : SampleDecoder, d.time_shift_set_ = true →
    (d.decode_impl s).1.time_shift_set_ = true := by
  induction s with
  | nil => exact fun d h => h
  | cons r rest ih =>
    intro d h
    cases r with
    | cd x y p dt =>
      have hstep := ih { d with last_timestamp_ := d.time_high_ + (dt : Int) } h
      simpa [SampleDecoder.decode_impl, SampleDecoder.decodeRecord] using hstep
    | timerHigh t =>
      have hcond : (d.time_shift_enabled && !d.time_shift_set_) = false := by
        simp [h]
      have hstep := ih { d with time_high_ := (t : Int) - d.time_shift_ } h
      simpa [SampleDecoder.decode_impl, SampleDecoder.decodeRecord, hcond] using hstep
    | unknown disc => exact h


/-- Main monotonicity invariant of one decode call over a buffer of
valid records: if the raw in-stream timestamps continue a
non-decreasing chain, the time invariants are preserved,
`last_timestamp_` does not decrease, and — while the shift is still
underivable — the buffer held no marker. -/
theorem decode_mono (s : List RawRecord) :
    ∀ (d : SampleDecoder) (th0 m : Nat),
    (∀ r ∈ s, r.isValid = true) →
    chain_le m (rawTimes th0 s) = true →
    d.time_high_ = (th0 : Int) - d.time_shift_ →
    d.last_timestamp_ ≤ (m : Int) - d.time_shift_ →
    (d.time_shift_enabled = true → d.time_shift_set_ = false →
      noCDbeforeTH s = true ∧ d.last_timestamp_ ≤ 0) →
    d.last_timestamp_ ≤ (d.decode_impl s).1.last_timestamp_ ∧
    (d.decode_impl s).1.time_high_ =
      ((finalTH th0 s : Nat) : Int) - (d.decode_impl s).1.time_shift_ ∧
    (d.decode_impl s).1.last_timestamp_ ≤
      ((lastD m (rawTimes th0 s) : Nat) : Int) - (d.decode_impl s).1.time_shift_ ∧
    (d.decode_impl s).1.time_shift_enabled = d.time_shift_enabled ∧
    ((d.decode_impl s).1.time_shift_enabled = true →
      (d.decode_impl s).1.time_shift_set_ = false →
      (∀ r ∈ s, r.isTH = false) ∧ (d.decode_impl s).1.last_timestamp_ ≤ 0) := by
  induction s with
  | nil =>
    intro d th0 m _ _ hhigh hlast h5
    refine ⟨le_refl _, by simpa [finalTH] using hhigh,
      by simpa [rawTimes, lastD] using hlast, rfl,
      fun he hs => ⟨fun r hr => absurd hr (List.not_mem_nil r), (h5 he hs).2⟩⟩
  | cons r rest ih =>
    intro d th0 m hval hchain hhigh hlast h5
    cases r with
    | unknown disc =>
      have hv := hval (.unknown disc) (List.mem_cons_self _ _)
      simp [RawRecord.isValid] at hv
    | cd x y p dt =>
      have hvrest : ∀ q ∈ rest, q.isValid = true :=
        fun q hq => hval q (List.mem_cons_of_mem _ hq)
      have hc2 : (decide (m ≤ th0 + dt) &&
          chain_le (th0 + dt) (rawTimes th0 rest)) = true := by
        simpa [rawTimes, chain_le] using hchain
      rw [Bool.and_eq_true, decide_eq_true_eq] at hc2
      obtain ⟨hm, hcrest⟩ := hc2
      by_cases hactive : d.time_shift_enabled = true ∧ d.time_shift_set_ = false
      · exfalso
        have hno := (h5 hactive.1 hactive.2).1
        simp [noCDbeforeTH] at hno
      · have hd1last : d.time_high_ + (dt : Int) =
            ((th0 + dt : Nat) : Int) - d.time_shift_ := by
          rw [hhigh]
          push_cast
          ring
        have ihr := ih { d with last_timestamp_ := d.time_high_ + (dt : Int) }
          th0 (th0 + dt) hvrest hcrest hhigh (le_of_eq hd1last)
          (fun he hs => absurd ⟨he, hs⟩ hactive)
        have hmono : d.last_timestamp_ ≤ d.time_high_ + (dt : Int) := by
          have hm2 : (m : Int) ≤ ((th0 + dt : Nat) : Int) := by exact_mod_cast hm
          linarith [hd1last]
        refine ⟨?_, ?_, ?_, ?_, ?_⟩
        · refine le_trans hmono ?_
          simpa [SampleDecoder.decode_impl, SampleDecoder.decodeRecord] using ihr.1
        · simpa [SampleDecoder.decode_impl, SampleDecoder.decodeRecord, finalTH]
            using ihr.2.1
        · simpa [SampleDecoder.decode_impl, SampleDecoder.decodeRecord, rawTimes,
            lastD] using ihr.2.2.1
        · simpa [SampleDecoder.decode_impl, SampleDecoder.decodeRecord]
            using ihr.2.2.2.1
        · intro he hs
          have he2 : ((SampleDecoder.decode_impl { d with last_timestamp_ := d.time_high_ + (dt : Int) } rest).1).time_shift_enabled = true := by
            simpa [SampleDecoder.decode_impl, SampleDecoder.decodeRecord] using he
          have hs2 : ((SampleDecoder.decode_impl { d with last_timestamp_ := d.time_high_ + (dt : Int) } rest).1).time_shift_set_ = false := by
            simpa [SampleDecoder.decode_impl, SampleDecoder.decodeRecord] using hs
          refine ⟨?_, ?_⟩
          · intro q hq
            rcases List.mem_cons.mp hq with hq | hq
            · rw [hq]; rfl
            · exact (ihr.2.2.2.2 he2 hs2).1 q hq
          · simpa [SampleDecoder.decode_impl, SampleDecoder.decodeRecord]
              using (ihr.2.2.2.2 he2 hs2).2
    | timerHigh t =>
      have hvrest : ∀ q ∈ rest, q.isValid = true :=
        fun q hq => hval q (List.mem_cons_of_mem _ hq)
      have hc2 : (decide (m ≤ t) && chain_le t (rawTimes t rest)) = true := by
        simpa [rawTimes, chain_le] using hchain
      rw [Bool.and_eq_true, decide_eq_true_eq] at hc2
      obtain ⟨hm, hcrest⟩ := hc2
      have hm2 : (m : Int) ≤ (t : Int) := by exact_mod_cast hm
      by_cases hcond : (d.time_shift_enabled && !d.time_shift_set_) = true
      · have hparts := hcond
        rw [Bool.and_eq_true, Bool.not_eq_true'] at hparts
        have hle0 := (h5 hparts.1 hparts.2).2
        have ihr := ih { d with time_shift_ := (t : Int), time_shift_set_ := true, time_high_ := (t : Int) - (t : Int) } t t hvrest hcrest rfl
          (by show d.last_timestamp_ ≤ (t : Int) - (t : Int); linarith)
          (by intro _ hs
              have hx : (true : Bool) = false := hs
              simp at hx)
        have hsm := decode_set_mono rest { d with time_shift_ := (t : Int), time_shift_set_ := true, time_high_ := (t : Int) - (t : Int) } rfl
        refine ⟨?_, ?_, ?_, ?_, ?_⟩
        · simpa [SampleDecoder.decode_impl, SampleDecoder.decodeRecord, hcond]
            using ihr.1
        · simpa [SampleDecoder.decode_impl, SampleDecoder.decodeRecord, hcond,
            finalTH] using ihr.2.1
        · simpa [SampleDecoder.decode_impl, SampleDecoder.decodeRecord, hcond,
            rawTimes, lastD] using ihr.2.2.1
        · simpa [SampleDecoder.decode_impl, SampleDecoder.decodeRecord, hcond]
            using ihr.2.2.2.1
        · intro he hs
          simp [SampleDecoder.decode_impl, SampleDecoder.decodeRecord, hcond]
            at hs hsm
          rw [hsm] at hs
          exact Bool.noConfusion hs
      · have hcondf : (d.time_shift_enabled && !d.time_shift_set_) = false := by
          revert hcond
          cases d.time_shift_enabled && !d.time_shift_set_ <;> simp
        have ihr := ih { d with time_high_ := (t : Int) - d.time_shift_ } t t
          hvrest hcrest rfl
          (by show d.last_timestamp_ ≤ (t : Int) - d.time_shift_; linarith)
          (by intro he hs
              exfalso
              apply hcond
              have he2 : d.time_shift_enabled = true := he
              have hs2 : d.time_shift_set_ = false := hs
              simp [he2, hs2])
        refine ⟨?_, ?_, ?_, ?_, ?_⟩
        · simpa [SampleDecoder.decode_impl, SampleDecoder.decodeRecord, hcondf]
            using ihr.1
        · simpa [SampleDecoder.decode_impl, SampleDecoder.decodeRecord, hcondf,
            finalTH] using ihr.2.1
        · simpa [SampleDecoder.decode_impl, SampleDecoder.decodeRecord, hcondf,
            rawTimes, lastD] using ihr.2.2.1
        · simpa [SampleDecoder.decode_impl, SampleDecoder.decodeRecord, hcondf]
            using ihr.2.2.2.1
        · intro he hs
          exfalso
          apply hcond
          have he2 : ((SampleDecoder.decode_impl { d with time_high_ := (t : Int) - d.time_shift_ } rest).1).time_shift_enabled = true := by
            simpa [SampleDecoder.decode_impl, SampleDecoder.decodeRecord, hcondf]
              using he
          have hs2 : ((SampleDecoder.decode_impl { d with time_high_ := (t : Int) - d.time_shift_ } rest).1).time_shift_set_ = false := by
            simpa [SampleDecoder.decode_impl, SampleDecoder.decodeRecord, hcondf]
              using hs
          have hen : d.time_shift_enabled = true := by
            have h4 := ihr.2.2.2.1
            rw [h4] at he2
            exact he2
          have hsetd : d.time_shift_set_ = false := by
            by_contra hx
            simp only [Bool.not_eq_false] at hx
            have hsm := decode_set_mono rest
              { d with time_high_ := (t : Int) - d.time_shift_ } hx
            rw [hsm] at hs2
            exact Bool.noConfusion hs2
          simp [hen, hsetd]

/-- Monotonicity across successive decode calls: under the same
stream hypotheses, the per-call `last_timestamp_` values form a
non-decreasing chain starting at the current value. -/
theorem decodeCalls_mono (bufs : List (List RawRecord)) :
    ∀ (d : SampleDecoder) (th0 m : Nat),
    (∀ b ∈ bufs, ∀ r ∈ b, r.isValid = true) →
    chain_le m (rawTimes th0 bufs.flatten) = true →
    d.time_high_ = (th0 : Int) - d.time_shift_ →
    d.last_timestamp_ ≤ (m : Int) - d.time_shift_ →
    (d.time_shift_enabled = true → d.time_shift_set_ = false →
      noCDbeforeTH bufs.flatten = true ∧ d.last_timestamp_ ≤ 0) →
    chainI_le d.last_timestamp_
      ((decodeCalls d bufs).map SampleDecoder.last_timestamp_) = true := by
  induction bufs with
  | nil => intro d th0 m _ _ _ _ _; rfl
  | cons b rest ih =>
    intro d th0 m hval hchain hhigh hlast h5
    have hvb : ∀ r ∈ b, r.isValid = true := hval b (List.mem_cons_self _ _)
    have hvrest : ∀ c ∈ rest, ∀ r ∈ c, r.isValid = true :=
      fun c hc => hval c (List.mem_cons_of_mem _ hc)
    have hj : (b :: rest).flatten = b ++ rest.flatten := rfl
    rw [hj, rawTimes_append, chain_le_append, Bool.and_eq_true] at hchain
    have h5b : d.time_shift_enabled = true → d.time_shift_set_ = false →
        noCDbeforeTH b = true ∧ d.last_timestamp_ ≤ 0 := by
      intro he hs
      refine ⟨noCDbeforeTH_append_left b rest.flatten ?_, (h5 he hs).2⟩
      exact (h5 he hs).1
    obtain ⟨m1, m2, m3, m4, m5⟩ :=
      decode_mono b d th0 m hvb hchain.1 hhigh hlast h5b
    simp only [decodeCalls, List.map_cons, chainI_le, Bool.and_eq_true,
      decide_eq_true_eq]
    refine ⟨m1, ?_⟩
    refine ih (d.decode_impl b).1 (finalTH th0 b) (lastD m (rawTimes th0 b))
      hvrest hchain.2 m2 m3 ?_
    intro he hs
    have hen : d.time_shift_enabled = true := by rw [← m4]; exact he
    have hsetd : d.time_shift_set_ = false := by
      by_contra hx
      simp only [Bool.not_eq_false] at hx
      have hset1 := decode_set_mono b d hx
      rw [hset1] at hs
      exact Bool.noConfusion hs
    have hb5 := m5 he hs
    refine ⟨noCDbeforeTH_append_right b rest.flatten hb5.1 ?_, hb5.2⟩
    exact (h5 hen hsetd).1

/-- C2 (amended): for a decoder fed a sequence of buffers of
well-formed records whose raw in-stream timestamps are non-decreasing,
with no reset call occurring and — when time shifting is enabled —
with no CD record preceding the first timer-high record of the stream,
`get_last_timestamp` after each decode call is ≥ its value before
that call. -/
theorem c2_last_timestamp_monotone (e : Bool) (bufs : List (List RawRecord))
    (hval : ∀ b ∈ bufs, ∀ r ∈ b, r.isValid = true)
    (hchain : chain_le 0 (rawTimes 0 bufs.flatten) = true)
    (hfirst : e = true → noCDbeforeTH bufs.flatten = true) :
    chainI_le ((SampleDecoder.init e).get_last_timestamp).1
      ((decodeCalls (SampleDecoder.init e) bufs).map
        (fun d => (d.get_last_timestamp).1)) = true := by
  have hmain := decodeCalls_mono bufs (SampleDecoder.init e) 0 0 hval hchain
    (by simp [SampleDecoder.init])
    (by simp [SampleDecoder.init])
    (fun he hs => ⟨hfirst he, by simp [SampleDecoder.init]⟩)
  exact hmain

/-- Witness for C2 (amended) on three concrete buffers led by a
timer-high record. -/
theorem c2_last_timestamp_monotone_witness :
    (∀ b ∈ [[RawRecord.timerHigh 10, RawRecord.cd 0 0 true 5],
        [RawRecord.cd 1 1 false 7, RawRecord.timerHigh 20],
        [RawRecord.cd 2 2 true 1]], ∀ r ∈ b, r.isValid = true) ∧
    chain_le 0 (rawTimes 0 [[RawRecord.timerHigh 10, RawRecord.cd 0 0 true 5],
        [RawRecord.cd 1 1 false 7, RawRecord.timerHigh 20],
        [RawRecord.cd 2 2 true 1]].flatten) = true ∧
    chainI_le ((SampleDecoder.init true).get_last_timestamp).1
      ((decodeCalls (SampleDecoder.init true)
          [[RawRecord.timerHigh 10, RawRecord.cd 0 0 true 5],
            [RawRecord.cd 1 1 false 7, RawRecord.timerHigh 20],
            [RawRecord.cd 2 2 true 1]]).map
        (fun d => (d.get_last_timestamp).1)) = true :=
  ⟨by decide, by decide,
    c2_last_timestamp_monotone true
      [[RawRecord.timerHigh 10, RawRecord.cd 0 0 true 5],
        [RawRecord.cd 1 1 false 7, RawRecord.timerHigh 20],
        [RawRecord.cd 2 2 true 1]] (by decide) (by decide) (by decide)⟩

/-- C2 (as stated) is refuted: with time shifting enabled, a CD record
of raw time 5 decoded before the first marker (raw time 10) yields
`last_timestamp_ = 5`; the next call decodes the marker and a CD
record of raw time 11, reported as 11 - 10 = 1 < 5, so the value of
`get_last_timestamp` decreases across decode calls although the raw
in-stream timestamps 5, 10, 11 are non-decreasing and no reset
occurs. -/
theorem c2_counterexample :
    ¬ (∀ (e : Bool) (bufs : List (List RawRecord)),
        (∀ b ∈ bufs, ∀ r ∈ b, r.isValid = true) →
        chain_le 0 (rawTimes 0 bufs.flatten) = true →
        chainI_le ((SampleDecoder.init e).get_last_timestamp).1
          ((decodeCalls (SampleDecoder.init e) bufs).map
            (fun d => (d.get_last_timestamp).1)) = true) := by
  intro h
  have hx := h true [[RawRecord.cd 0 0 true 5],
    [RawRecord.timerHigh 10, RawRecord.cd 0 0 true 1]] (by decide) (by decide)
  revert hx
  decide

end Future
